import Mathlib

/-!
Verification of the token-resolution engine and the slash-escaping tree walk
of the scriptResolution repository.

The JSON data handled by the Python code is modelled by the inductive type
Json below (numbers are modelled as integers; none of the verified claims
involves fractional numbers).  Python dicts are modelled as association
lists in insertion order, which is exactly the iteration order Python
guarantees; JSON object keys are strings, so the source's
isinstance(key, str) guards on keys are always satisfied and are not
represented.  Python's str.upper / str.strip / str.isspace are modelled
character-wise over ASCII (Char.toUpper, Char.isWhitespace), which agrees
with Python on all inputs appearing in the claims.

Functions that can raise in Python (attribute access on a non-dict record)
return Except Unit; Except.error () models the raised AttributeError.
All other functions are total, as in the source.
-/

inductive Json where
  | null
  | bool (b : Bool)
  | num (n : Int)
  | str (s : String)
  | arr (xs : List Json)
  | obj (kvs : List (String × Json))

/-- Characters kept by normalize_name: the source keeps ch when
not ch.isspace() and ch != underscore. -/
def keepChar (c : Char) : Bool :=
  !c.isWhitespace && c != '_'

/-- Model of Python str.strip at the character-list level: drop whitespace
from both ends. -/
def pyStripChars (l : List Char) : List Char :=
  ((l.dropWhile Char.isWhitespace).reverse.dropWhile Char.isWhitespace).reverse

/-- Body of normalize_name over character lists: uppercase, strip, then
remove every whitespace character and every underscore. -/
def normChars (l : List Char) : List Char :=
  (pyStripChars (l.map Char.toUpper)).filter keepChar

/-- Embedding of normalize_name from cds_mapping.py: uppercase, strip
leading and trailing whitespace, then drop all whitespace and underscores. -/
def normalize_name (s : String) : String :=
  String.mk (normChars s.data)

/-- Joins strings with a comma separator, as Python does when printing
containers; used only by the generic-representation fallback. -/
def joinComma : List String → String
  | [] => ""
  | [x] => x
  | x :: rest => x ++ ", " ++ joinComma rest

mutual

/-- Model of Python str() and repr() on a JSON value, used only for the
fallback branch of extract_scalar_value (dicts and nested values). -/
def pyRepr : Json → String
  | Json.null => "None"
  | Json.bool b => if b then (r"True") else (r"False")
  | Json.num n => toString n
  | Json.str s => "\x27" ++ s ++ "\x27"
  | Json.arr xs => "[" ++ joinComma (pyReprList xs) ++ "]"
  | Json.obj kvs => "\x7b" ++ joinComma (pyReprKvs kvs) ++ "\x7d"

/-- Representations of the elements of a list value. -/
def pyReprList : List Json → List String
  | [] => []
  | x :: rest => pyRepr x :: pyReprList rest

/-- Representations of the entries of an object value. -/
def pyReprKvs : List (String × Json) → List String
  | [] => []
  | (k, v) :: rest => ("\x27" ++ k ++ "\x27: " ++ pyRepr v) :: pyReprKvs rest

end

/-- The first element of a list that is a string, as scanned by the loop in
extract_scalar_value. -/
def firstString : List Json → Option String
  | [] => none
  | Json.str s :: _ => some s
  | _ :: rest => firstString rest

/-- Embedding of extract_scalar_value from cds_mapping.py: None becomes the
empty string; a list yields its first string element, or the empty string
when the list is empty or has no string element; strings, numbers and
booleans are rendered with Python str(); anything else falls back to the
generic representation. -/
def extract_scalar_value : Json → String
  | Json.null => ""
  | Json.arr xs =>
      if xs.isEmpty then ""
      else
        match firstString xs with
        | some s => s
        | none => ""
  | Json.str s => s
  | Json.num n => toString n
  | Json.bool b => if b then (r"True") else (r"False")
  | Json.obj kvs => pyRepr (Json.obj kvs)

/-- Model of Python dict.get on an association list: the value of the first
entry with exactly this key, if any. -/
def pyGet (kvs : List (String × Json)) (key : String) : Option Json :=
  (kvs.find? (fun kv => kv.1 == key)).map (fun kv => kv.2)

/-- Loop body of lookup_root_field: scan the entries in order and return
the extracted value of the first key whose normalized form equals the
target. -/
def lookupRootAux (target : String) : List (String × Json) → Option String
  | [] => none
  | (k, v) :: rest =>
      if normalize_name k = target then some (extract_scalar_value v)
      else lookupRootAux target rest

/-- Embedding of lookup_root_field from cds_mapping.py.  The source
iterates root_obj.items(); on a value that is not a dict this attribute
access raises, which is modelled by Except.error. -/
def lookup_root_field (var_str : String) (root_obj : Json) : Except Unit (Option String) :=
  match root_obj with
  | Json.obj kvs => Except.ok (lookupRootAux (normalize_name var_str) kvs)
  | _ => Except.error ()

/-- Loop body of find_person_by_role: skip entries that are not objects and
entries whose Role value is absent or not a string; return the first entry
whose normalized Role equals the target. -/
def findPersonAux (target : String) : List Json → Option Json
  | [] => none
  | person :: rest =>
      match person with
      | Json.obj kvs =>
          match pyGet kvs (r"Role") with
          | some (Json.str roleVal) =>
              if normalize_name roleVal = target then some (Json.obj kvs)
              else findPersonAux target rest
          | _ => findPersonAux target rest
      | _ => findPersonAux target rest

/-- Embedding of find_person_by_role from cds_mapping.py. -/
def find_person_by_role (people_list : List Json) (role_token : String) : Option Json :=
  findPersonAux (normalize_name role_token) people_list

mutual

/-- Embedding of the inner _search function of find_value_in_obj, with the
target name already normalized.  At a dict, each key is checked in
iteration order; on a match the extracted value is returned at once,
otherwise the search descends into that key's value before moving to the
next key.  Lists are searched element by element; scalars yield nothing. -/
def searchVal (target : String) : Json → Option String
  | Json.obj kvs => searchKvs target kvs
  | Json.arr xs => searchArr target xs
  | _ => none

/-- The dict loop of _search. -/
def searchKvs (target : String) : List (String × Json) → Option String
  | [] => none
  | (k, v) :: rest =>
      if normalize_name k = target then some (extract_scalar_value v)
      else
        match searchVal target v with
        | some found => some found
        | none => searchKvs target rest

/-- The list loop of _search. -/
def searchArr (target : String) : List Json → Option String
  | [] => none
  | x :: rest =>
      match searchVal target x with
      | some found => some found
      | none => searchArr target rest

end

/-- Embedding of find_value_in_obj from cds_mapping.py: normalize the field
token, then run the depth-first search. -/
def find_value_in_obj (obj : Json) (field_token : String) : Option String :=
  searchVal (normalize_name field_token) obj

/-- Embedding of lookup_people_field from cds_mapping.py.  The source calls
root_obj.get, which raises on a non-dict record (Except.error); a people
entry that is absent or not a list yields None. -/
def lookup_people_field (root_obj : Json) (role_token : String) (var_token : String) :
    Except Unit (Option String) :=
  match root_obj with
  | Json.obj kvs =>
      match pyGet kvs (r"people") with
      | some (Json.arr people) =>
          match find_person_by_role people role_token with
          | some person => Except.ok (find_value_in_obj person var_token)
          | none => Except.ok none
      | _ => Except.ok none
  | _ => Except.error ()

/-- Model of Python str.partition with separator underscore, restricted to
what resolve_variable uses: some (before, after) splits at the first
underscore; none when there is no underscore (empty separator). -/
def pyPartitionUnderscore : List Char → Option (List Char × List Char)
  | [] => none
  | c :: rest =>
      if c = '_' then some ([], rest)
      else
        match pyPartitionUnderscore rest with
        | some (before, after) => some (c :: before, after)
        | none => none

/-- The literal PEOPLE_ used by resolve_variable, as a character list. -/
def peopleTag : List Char :=
  (r"PEOPLE_").data

/-- Embedding of resolve_variable from cds_mapping.py.  The token is
stripped; an empty token resolves to the empty string.  Otherwise the
stripped token is uppercased: a PEOPLE_ token is split at the first
underscore after the tag into a role token and a var token (no underscore:
empty string) and resolved through lookup_people_field; a token with no
underscore is resolved through lookup_root_field; every other token
resolves to the empty string.  The source's guard for a None argument is
unreachable for string tokens and is not represented. -/
def resolve_variable (var_str : String) (root_obj : Json) : Except Unit String :=
  let var_clean := pyStripChars var_str.data
  if var_clean.isEmpty then Except.ok ""
  else
    let var_upper := var_clean.map Char.toUpper
    if var_upper.take 7 = peopleTag then
      match pyPartitionUnderscore (var_upper.drop 7) with
      | none => Except.ok ""
      | some (role_token, var_token) =>
          match lookup_people_field root_obj (String.mk role_token) (String.mk var_token) with
          | Except.error e => Except.error e
          | Except.ok (some value) => Except.ok value
          | Except.ok none => Except.ok ""
    else if !(var_clean.contains '_') then
      match lookup_root_field (String.mk var_clean) root_obj with
      | Except.error e => Except.error e
      | Except.ok (some value) => Except.ok value
      | Except.ok none => Except.ok ""
    else Except.ok ""

mutual

/-- Embedding of transform_structure from cds_mapping.py: rebuild the
template, replacing every string leaf by its resolution; an error raised by
a resolution aborts the whole transform, as an exception would. -/
def transform_structure (obj : Json) (root_obj : Json) : Except Unit Json :=
  match obj with
  | Json.obj kvs =>
      match transformKvs kvs root_obj with
      | Except.ok kvs2 => Except.ok (Json.obj kvs2)
      | Except.error e => Except.error e
  | Json.arr xs =>
      match transformArr xs root_obj with
      | Except.ok xs2 => Except.ok (Json.arr xs2)
      | Except.error e => Except.error e
  | Json.str s =>
      match resolve_variable s root_obj with
      | Except.ok value => Except.ok (Json.str value)
      | Except.error e => Except.error e
  | other => Except.ok other

/-- The dict comprehension of transform_structure: transform each value in
iteration order, keeping the keys. -/
def transformKvs (kvs : List (String × Json)) (root_obj : Json) :
    Except Unit (List (String × Json)) :=
  match kvs with
  | [] => Except.ok []
  | (k, v) :: rest =>
      match transform_structure v root_obj with
      | Except.ok v2 =>
          match transformKvs rest root_obj with
          | Except.ok rest2 => Except.ok ((k, v2) :: rest2)
          | Except.error e => Except.error e
      | Except.error e => Except.error e

/-- The list comprehension of transform_structure: transform each element
in order. -/
def transformArr (xs : List Json) (root_obj : Json) : Except Unit (List Json) :=
  match xs with
  | [] => Except.ok []
  | x :: rest =>
      match transform_structure x root_obj with
      | Except.ok x2 =>
          match transformArr rest root_obj with
          | Except.ok rest2 => Except.ok (x2 :: rest2)
          | Except.error e => Except.error e
      | Except.error e => Except.error e

end

/-- Model of the str.replace call of escape_slashes at the character-list
level: the pattern is the single character slash, so the left-to-right
non-overlapping replacement doubles every slash. -/
def replSlash : List Char → List Char
  | [] => []
  | c :: rest =>
      if c = '/' then '/' :: '/' :: replSlash rest
      else c :: replSlash rest

/-- Model of the Python expression obj.replace applied to a string leaf by
escape_slashes: every slash is replaced by two slashes. -/
def pyReplaceSlash (s : String) : String :=
  String.mk (replSlash s.data)

mutual

/-- Embedding of escape_slashes from merge_letterdata.py: rebuild the
structure, doubling every slash in every string leaf; everything else is
returned unchanged. -/
def escape_slashes : Json → Json
  | Json.obj kvs => Json.obj (escKvs kvs)
  | Json.arr xs => Json.arr (escArr xs)
  | Json.str s => Json.str (pyReplaceSlash s)
  | other => other

/-- The dict comprehension of escape_slashes. -/
def escKvs : List (String × Json) → List (String × Json)
  | [] => []
  | (k, v) :: rest => (k, escape_slashes v) :: escKvs rest

/-- The list comprehension of escape_slashes. -/
def escArr : List Json → List Json
  | [] => []
  | x :: rest => escape_slashes x :: escArr rest

end

mutual

/-- Specification-side shape of a JSON value: the content of every string
leaf is blanked, everything else (object keys and their order, list lengths
and order, non-string leaves) is kept exactly.  Two values have the same
shape iff they agree everywhere except possibly in the content of string
leaves. -/
def shape : Json → Json
  | Json.str _ => Json.str ""
  | Json.arr xs => Json.arr (shapeArr xs)
  | Json.obj kvs => Json.obj (shapeKvs kvs)
  | other => other

/-- Shapes of object entries. -/
def shapeKvs : List (String × Json) → List (String × Json)
  | [] => []
  | (k, v) :: rest => (k, shape v) :: shapeKvs rest

/-- Shapes of list elements. -/
def shapeArr : List Json → List Json
  | [] => []
  | x :: rest => shape x :: shapeArr rest

end

mutual

/-- Specification-side list, in the traversal order of the deep search, of
the values of every key whose normalized name equals the target: at an
object, each entry in iteration order first contributes its own value when
its key matches, then the matches inside its value, and then the matches of
the remaining entries; a list contributes the matches of its elements in
order; scalars contribute nothing. -/
def matchesVal (target : String) : Json → List Json
  | Json.obj kvs => matchesKvs target kvs
  | Json.arr xs => matchesArr target xs
  | _ => []

/-- Matches contributed by object entries. -/
def matchesKvs (target : String) : List (String × Json) → List Json
  | [] => []
  | (k, v) :: rest =>
      (if normalize_name k = target then [v] else []) ++
        matchesVal target v ++ matchesKvs target rest

/-- Matches contributed by list elements. -/
def matchesArr (target : String) : List Json → List Json
  | [] => []
  | x :: rest => matchesVal target x ++ matchesArr target rest

end

/-- Specification-side test for a string value. -/
def isStrJson : Json → Bool
  | Json.str _ => true
  | _ => false

/-- Specification-side extraction of a string from an optional value,
defaulting to the empty string. -/
def getStrD : Option Json → String
  | some (Json.str s) => s
  | _ => ""

/-- Specification-side per-person predicate of the role search: the entry
is an object whose Role attribute is a string normalizing to the target. -/
def roleMatches (target : String) : Json → Bool
  | Json.obj kvs =>
      match pyGet kvs (r"Role") with
      | some (Json.str roleVal) => normalize_name roleVal == target
      | _ => false
  | _ => false

/-- Specification-side test that an optional value is present and a list. -/
def isListOpt : Option Json → Bool
  | some (Json.arr _) => true
  | _ => false

/-- Uppercasing a character twice is the same as uppercasing it once. -/
theorem toUpper_toUpper (c : Char) : c.toUpper.toUpper = c.toUpper := by
  by_cases h : 97 ≤ c.toNat ∧ c.toNat ≤ 122
  · have h1 : c.toUpper = Char.ofNat (c.toNat - 32) := by
      simp [Char.toUpper, h.1, h.2]
    rw [h1]
    have h65 : 65 ≤ c.toNat - 32 := by omega
    have h90 : c.toNat - 32 ≤ 90 := by omega
    set m := c.toNat - 32 with hm
    interval_cases m <;> decide
  · have h1 : c.toUpper = c := by
      simp [Char.toUpper]
      omega
    rw [h1, h1]

/-- Uppercasing never creates or destroys an underscore. -/
theorem toUpper_eq_underscore (c : Char) : c.toUpper = '_' ↔ c = '_' := by
  constructor
  · intro h
    by_cases hc : 97 ≤ c.toNat ∧ c.toNat ≤ 122
    · exfalso
      have h1 : c.toUpper = Char.ofNat (c.toNat - 32) := by
        simp [Char.toUpper, hc.1, hc.2]
      rw [h1] at h
      have h65 : 65 ≤ c.toNat - 32 := by omega
      have h90 : c.toNat - 32 ≤ 90 := by omega
      set m := c.toNat - 32 with hm
      interval_cases m <;> simp_all
    · have h1 : c.toUpper = c := by
        simp [Char.toUpper]
        omega
      rw [h1] at h
      exact h
  · intro h
    subst h
    decide

/-- Membership survives dropWhile. -/
theorem mem_of_mem_dropWhile {α : Type} (p : α → Bool) :
    ∀ (l : List α) (a : α), a ∈ l.dropWhile p → a ∈ l := by
  intro l
  induction l with
  | nil => intro a h; simp [List.dropWhile] at h
  | cons x rest ih =>
      intro a h
      rw [List.dropWhile_cons] at h
      by_cases hx : p x = true
      · rw [if_pos hx] at h
        exact List.mem_cons_of_mem x (ih a h)
      · rw [if_neg hx] at h
        exact h

/-- Membership in the stripped list implies membership in the original. -/
theorem mem_of_mem_pyStripChars {c : Char} {l : List Char} (h : c ∈ pyStripChars l) : c ∈ l := by
  unfold pyStripChars at h
  rw [List.mem_reverse] at h
  have h2 := mem_of_mem_dropWhile _ _ _ h
  rw [List.mem_reverse] at h2
  exact mem_of_mem_dropWhile _ _ _ h2

/-- dropWhile is the identity on a list none of whose elements satisfy the
predicate. -/
theorem dropWhile_eq_self_of_none {α : Type} (p : α → Bool) (l : List α)
    (h : ∀ a ∈ l, p a = false) : l.dropWhile p = l := by
  cases l with
  | nil => rfl
  | cons x rest =>
      rw [List.dropWhile_cons, if_neg]
      simp [h x (List.mem_cons_self x rest)]

/-- Stripping a list with no whitespace is the identity. -/
theorem pyStripChars_eq_self (l : List Char)
    (h : ∀ c ∈ l, Char.isWhitespace c = false) : pyStripChars l = l := by
  unfold pyStripChars
  rw [dropWhile_eq_self_of_none _ _ h]
  rw [dropWhile_eq_self_of_none _ _ (fun c hc => h c (List.mem_reverse.mp hc))]
  exact List.reverse_reverse l

/-- Mapping toUpper over a list of fixed points is the identity. -/
theorem map_toUpper_eq_self (l : List Char)
    (h : ∀ c ∈ l, Char.toUpper c = c) : l.map Char.toUpper = l := by
  induction l with
  | nil => rfl
  | cons x rest ih =>
      simp only [List.map_cons]
      rw [h x (List.mem_cons_self x rest), ih (fun c hc => h c (List.mem_cons_of_mem x hc))]

/-- Every character surviving normalization is kept by the filter. -/
theorem keep_of_mem_normChars {c : Char} {l : List Char} (h : c ∈ normChars l) :
    keepChar c = true :=
  List.of_mem_filter h

/-- Every character surviving normalization is already uppercase. -/
theorem upper_of_mem_normChars {c : Char} {l : List Char} (h : c ∈ normChars l) :
    Char.toUpper c = c := by
  have h1 : c ∈ pyStripChars (l.map Char.toUpper) := List.mem_of_mem_filter h
  have h2 : c ∈ l.map Char.toUpper := mem_of_mem_pyStripChars h1
  rcases List.mem_map.mp h2 with ⟨a, _, ha⟩
  rw [← ha]
  exact toUpper_toUpper a

/-- Normalization of character lists is idempotent. -/
theorem normChars_idem (l : List Char) : normChars (normChars l) = normChars l := by
  have hkeep : ∀ c ∈ normChars l, keepChar c = true := fun c hc => keep_of_mem_normChars hc
  have hup : ∀ c ∈ normChars l, Char.toUpper c = c := fun c hc => upper_of_mem_normChars hc
  have hws : ∀ c ∈ normChars l, Char.isWhitespace c = false := by
    intro c hc
    have hk := hkeep c hc
    unfold keepChar at hk
    simp at hk
    exact hk.1
  show (pyStripChars ((normChars l).map Char.toUpper)).filter keepChar = normChars l
  rw [map_toUpper_eq_self _ hup, pyStripChars_eq_self _ hws, List.filter_eq_self.mpr hkeep]

mutual

/-- The deep search returns exactly the extraction of the first match in
traversal order. -/
theorem searchVal_matches (t : String) :
    ∀ j : Json, searchVal t j = ((matchesVal t j).head?).map extract_scalar_value
  | Json.null => rfl
  | Json.bool _ => rfl
  | Json.num _ => rfl
  | Json.str _ => rfl
  | Json.arr xs => by
      simpa [searchVal, matchesVal] using searchArr_matches t xs
  | Json.obj kvs => by
      simpa [searchVal, matchesVal] using searchKvs_matches t kvs

/-- Dict-loop version of searchVal_matches. -/
theorem searchKvs_matches (t : String) :
    ∀ kvs : List (String × Json),
      searchKvs t kvs = ((matchesKvs t kvs).head?).map extract_scalar_value
  | [] => rfl
  | (k, v) :: rest => by
      by_cases h : normalize_name k = t
      · simp [searchKvs, matchesKvs, h]
      · cases hm : matchesVal t v with
        | nil =>
            simp [searchKvs, matchesKvs, h, searchVal_matches t v,
              searchKvs_matches t rest, hm]
        | cons a l =>
            simp [searchKvs, matchesKvs, h, searchVal_matches t v, hm]

/-- List-loop version of searchVal_matches. -/
theorem searchArr_matches (t : String) :
    ∀ xs : List Json,
      searchArr t xs = ((matchesArr t xs).head?).map extract_scalar_value
  | [] => rfl
  | x :: rest => by
      cases hm : matchesVal t x with
      | nil =>
          simp [searchArr, matchesArr, searchVal_matches t x,
            searchArr_matches t rest, hm]
      | cons a l =>
          simp [searchArr, matchesArr, searchVal_matches t x, hm]

end

mutual

/-- A successful transform preserves the shape of the template. -/
theorem transform_shape (root_obj : Json) :
    ∀ (j out : Json), transform_structure j root_obj = Except.ok out → shape out = shape j
  | Json.null, out, h => by
      simp only [transform_structure, Except.ok.injEq] at h
      subst h
      rfl
  | Json.bool b, out, h => by
      simp only [transform_structure, Except.ok.injEq] at h
      subst h
      rfl
  | Json.num n, out, h => by
      simp only [transform_structure, Except.ok.injEq] at h
      subst h
      rfl
  | Json.str s, out, h => by
      rcases hr : resolve_variable s root_obj with e | v
      · simp only [transform_structure, hr] at h
        exact Except.noConfusion h
      · simp only [transform_structure, hr, Except.ok.injEq] at h
        subst h
        rfl
  | Json.arr xs, out, h => by
      rcases ha : transformArr xs root_obj with e | xs2
      · simp only [transform_structure, ha] at h
        exact Except.noConfusion h
      · simp only [transform_structure, ha, Except.ok.injEq] at h
        subst h
        simp only [shape]
        rw [transformArr_shape root_obj xs xs2 ha]
  | Json.obj kvs, out, h => by
      rcases hk : transformKvs kvs root_obj with e | kvs2
      · simp only [transform_structure, hk] at h
        exact Except.noConfusion h
      · simp only [transform_structure, hk, Except.ok.injEq] at h
        subst h
        simp only [shape]
        rw [transformKvs_shape root_obj kvs kvs2 hk]

/-- Entry-list version of transform_shape: keys and value shapes are kept. -/
theorem transformKvs_shape (root_obj : Json) :
    ∀ (kvs kvs2 : List (String × Json)),
      transformKvs kvs root_obj = Except.ok kvs2 → shapeKvs kvs2 = shapeKvs kvs
  | [], kvs2, h => by
      simp only [transformKvs, Except.ok.injEq] at h
      subst h
      rfl
  | (k, v) :: rest, kvs2, h => by
      rcases hv : transform_structure v root_obj with e | v2
      · simp only [transformKvs, hv] at h
        exact Except.noConfusion h
      · rcases hrest : transformKvs rest root_obj with e | rest2
        · simp only [transformKvs, hv, hrest] at h
          exact Except.noConfusion h
        · simp only [transformKvs, hv, hrest, Except.ok.injEq] at h
          subst h
          simp only [shapeKvs]
          rw [transform_shape root_obj v v2 hv, transformKvs_shape root_obj rest rest2 hrest]

/-- Element-list version of transform_shape. -/
theorem transformArr_shape (root_obj : Json) :
    ∀ (xs xs2 : List Json),
      transformArr xs root_obj = Except.ok xs2 → shapeArr xs2 = shapeArr xs
  | [], xs2, h => by
      simp only [transformArr, Except.ok.injEq] at h
      subst h
      rfl
  | x :: rest, xs2, h => by
      rcases hx : transform_structure x root_obj with e | x2
      · simp only [transformArr, hx] at h
        exact Except.noConfusion h
      · rcases hrest : transformArr rest root_obj with e | rest2
        · simp only [transformArr, hx, hrest] at h
          exact Except.noConfusion h
        · simp only [transformArr, hx, hrest, Except.ok.injEq] at h
          subst h
          simp only [shapeArr]
          rw [transform_shape root_obj x x2 hx, transformArr_shape root_obj rest rest2 hrest]

end

mutual

/-- Escaping slashes preserves the shape of the value. -/
theorem shape_escape : ∀ j : Json, shape (escape_slashes j) = shape j
  | Json.null => rfl
  | Json.bool _ => rfl
  | Json.num _ => rfl
  | Json.str _ => rfl
  | Json.arr xs => by simp [escape_slashes, shape, shape_escArr xs]
  | Json.obj kvs => by simp [escape_slashes, shape, shape_escKvs kvs]

/-- Entry-list version of shape_escape. -/
theorem shape_escKvs : ∀ kvs : List (String × Json), shapeKvs (escKvs kvs) = shapeKvs kvs
  | [] => rfl
  | (k, v) :: rest => by simp [escKvs, shapeKvs, shape_escape v, shape_escKvs rest]

/-- Element-list version of shape_escape. -/
theorem shape_escArr : ∀ xs : List Json, shapeArr (escArr xs) = shapeArr xs
  | [] => rfl
  | x :: rest => by simp [escArr, shapeArr, shape_escape x, shape_escArr rest]

end

/-- On an object record, lookup_root_field never raises. -/
theorem lookup_root_field_obj (var_str : String) (kvs : List (String × Json)) :
    lookup_root_field var_str (Json.obj kvs) =
      Except.ok (lookupRootAux (normalize_name var_str) kvs) := rfl

/-- On an object record, lookup_people_field never raises. -/
theorem lookup_people_field_obj (role_token var_token : String) (kvs : List (String × Json)) :
    ∃ o, lookup_people_field (Json.obj kvs) role_token var_token = Except.ok o := by
  rcases hp : pyGet kvs (r"people") with _ | j
  · exact ⟨none, by simp [lookup_people_field, hp]⟩
  · cases j with
    | arr people =>
        rcases hf : find_person_by_role people role_token with _ | person
        · exact ⟨none, by simp [lookup_people_field, hp, hf]⟩
        · exact ⟨find_value_in_obj person var_token, by simp [lookup_people_field, hp, hf]⟩
    | null => exact ⟨none, by simp [lookup_people_field, hp]⟩
    | bool b => exact ⟨none, by simp [lookup_people_field, hp]⟩
    | num n => exact ⟨none, by simp [lookup_people_field, hp]⟩
    | str s => exact ⟨none, by simp [lookup_people_field, hp]⟩
    | obj kvs2 => exact ⟨none, by simp [lookup_people_field, hp]⟩

/-- On an object record whose people entry is absent or not a list,
lookup_people_field finds nothing. -/
theorem lookup_people_field_no_people (role_token var_token : String)
    (kvs : List (String × Json)) (h : isListOpt (pyGet kvs (r"people")) = false) :
    lookup_people_field (Json.obj kvs) role_token var_token = Except.ok none := by
  rcases hp : pyGet kvs (r"people") with _ | j
  · simp [lookup_people_field, hp]
  · cases j with
    | arr people => rw [hp] at h; simp [isListOpt] at h
    | null => simp [lookup_people_field, hp]
    | bool b => simp [lookup_people_field, hp]
    | num n => simp [lookup_people_field, hp]
    | str s => simp [lookup_people_field, hp]
    | obj kvs2 => simp [lookup_people_field, hp]

/-- On an object record, resolve_variable never raises. -/
theorem resolve_variable_obj_ok (tok : String) (kvs : List (String × Json)) :
    ∃ s, resolve_variable tok (Json.obj kvs) = Except.ok s := by
  unfold resolve_variable
  by_cases h0 : (pyStripChars tok.data).isEmpty
  · exact ⟨"", by simp [h0]⟩
  · simp only [h0, Bool.false_eq_true, if_false]
    by_cases h1 : ((pyStripChars tok.data).map Char.toUpper).take 7 = peopleTag
    · simp only [h1, if_true]
      rcases hpart : pyPartitionUnderscore (((pyStripChars tok.data).map Char.toUpper).drop 7)
        with _ | ⟨role_token, var_token⟩
      · exact ⟨"", by simp [hpart]⟩
      · rcases lookup_people_field_obj (String.mk role_token) (String.mk var_token) kvs with ⟨o, ho⟩
        rcases o with _ | v
        · exact ⟨"", by simp [hpart, ho]⟩
        · exact ⟨v, by simp [hpart, ho]⟩
    · simp only [h1, if_false]
      cases h2 : (pyStripChars tok.data).contains '_' with
      | true => exact ⟨"", by simp⟩
      | false =>
          rcases ha : lookupRootAux (normalize_name (String.mk (pyStripChars tok.data))) kvs
            with _ | v
          · exact ⟨"", by simp [lookup_root_field_obj, ha]⟩
          · exact ⟨v, by simp [lookup_root_field_obj, ha]⟩

/-- A PEOPLE-shaped token resolves to the empty string on an object record
whose people entry is absent or not a list. -/
theorem resolve_no_people (tok : String) (kvs : List (String × Json))
    (hnl : isListOpt (pyGet kvs (r"people")) = false)
    (h7 : ((pyStripChars tok.data).map Char.toUpper).take 7 = peopleTag) :
    resolve_variable tok (Json.obj kvs) = Except.ok (r"") := by
  have hne : ¬(pyStripChars tok.data).isEmpty = true := by
    intro h0
    rw [List.isEmpty_iff] at h0
    rw [h0] at h7
    simp [peopleTag] at h7
  unfold resolve_variable
  rcases hpart : pyPartitionUnderscore (((pyStripChars tok.data).map Char.toUpper).drop 7)
    with _ | ⟨rt, vt⟩
  · simp [hne, h7, hpart]
  · have hlp := lookup_people_field_no_people (String.mk rt) (String.mk vt) kvs hnl
    simp [hne, h7, hpart, hlp]

/-- Uppercasing a character list neither creates nor destroys underscores. -/
theorem mem_map_toUpper_underscore (l : List Char) :
    '_' ∈ l.map Char.toUpper ↔ '_' ∈ l := by
  rw [List.mem_map]
  constructor
  · rintro ⟨a, ha, hu⟩
    rw [toUpper_eq_underscore] at hu
    rwa [hu] at ha
  · intro h
    exact ⟨'_', h, by decide⟩

/-- A token whose cleaned uppercased form has an underscore but no PEOPLE
tag resolves to the empty string on every record. -/
theorem resolve_underscore_unresolved (tok : String) (record : Json)
    (h1 : '_' ∈ (pyStripChars tok.data).map Char.toUpper)
    (h2 : ((pyStripChars tok.data).map Char.toUpper).take 7 ≠ peopleTag) :
    resolve_variable tok record = Except.ok (r"") := by
  have hmem : '_' ∈ pyStripChars tok.data := (mem_map_toUpper_underscore _).mp h1
  have hne : ¬(pyStripChars tok.data).isEmpty = true := by
    intro h0
    rw [List.isEmpty_iff] at h0
    rw [h0] at hmem
    simp at hmem
  have hcont : (pyStripChars tok.data).contains '_' = true := List.elem_iff.mpr hmem
  unfold resolve_variable
  simp [hne, h2, hcont]
  intro hc
  exact absurd hmem hc

/-- The first-string scan agrees with a find? for a string element. -/
theorem matchFirst_getStrD : ∀ xs : List Json,
    (match firstString xs with | some s => s | none => "") = getStrD (xs.find? isStrJson)
  | [] => rfl
  | x :: rest => by
      cases x with
      | str s => rfl
      | null => simpa [firstString, List.find?_cons, isStrJson] using matchFirst_getStrD rest
      | bool b => simpa [firstString, List.find?_cons, isStrJson] using matchFirst_getStrD rest
      | num n => simpa [firstString, List.find?_cons, isStrJson] using matchFirst_getStrD rest
      | arr xs2 => simpa [firstString, List.find?_cons, isStrJson] using matchFirst_getStrD rest
      | obj kvs => simpa [firstString, List.find?_cons, isStrJson] using matchFirst_getStrD rest

/-- Extraction from a list value is the first string element, if any, and
the empty string otherwise. -/
theorem extract_arr_find? (xs : List Json) :
    extract_scalar_value (Json.arr xs) = getStrD (xs.find? isStrJson) := by
  cases xs with
  | nil => rfl
  | cons x rest =>
      have hm := matchFirst_getStrD (x :: rest)
      simpa [extract_scalar_value] using hm

/-- The role-search loop is a first-match scan with the roleMatches
predicate. -/
theorem findPersonAux_eq_find? (t : String) :
    ∀ people : List Json, findPersonAux t people = people.find? (roleMatches t)
  | [] => rfl
  | p :: rest => by
      cases p with
      | obj kvs =>
          rcases hq : pyGet kvs (r"Role") with _ | j
          · simp [findPersonAux, roleMatches, hq, List.find?_cons, findPersonAux_eq_find? t rest]
          · cases j with
            | str rv =>
                by_cases hn : normalize_name rv = t
                · simp [findPersonAux, roleMatches, hq, hn, List.find?_cons]
                · simp [findPersonAux, roleMatches, hq, hn, List.find?_cons,
                    findPersonAux_eq_find? t rest]
            | null =>
                simp [findPersonAux, roleMatches, hq, List.find?_cons,
                  findPersonAux_eq_find? t rest]
            | bool b =>
                simp [findPersonAux, roleMatches, hq, List.find?_cons,
                  findPersonAux_eq_find? t rest]
            | num n =>
                simp [findPersonAux, roleMatches, hq, List.find?_cons,
                  findPersonAux_eq_find? t rest]
            | arr xs =>
                simp [findPersonAux, roleMatches, hq, List.find?_cons,
                  findPersonAux_eq_find? t rest]
            | obj kvs2 =>
                simp [findPersonAux, roleMatches, hq, List.find?_cons,
                  findPersonAux_eq_find? t rest]
      | null => simp [findPersonAux, roleMatches, List.find?_cons, findPersonAux_eq_find? t rest]
      | bool b => simp [findPersonAux, roleMatches, List.find?_cons, findPersonAux_eq_find? t rest]
      | num n => simp [findPersonAux, roleMatches, List.find?_cons, findPersonAux_eq_find? t rest]
      | str s => simp [findPersonAux, roleMatches, List.find?_cons, findPersonAux_eq_find? t rest]
      | arr xs => simp [findPersonAux, roleMatches, List.find?_cons, findPersonAux_eq_find? t rest]

/-- C1, counterexample: the claim predicts that the direct key match at the
root (value outer) is preferred over the match inside the earlier sibling
subtree, but the source's interleaved search returns inner. -/
theorem C1_counterexample_direct_key_not_preferred :
    find_value_in_obj
        (Json.obj [(r"a", Json.obj [(r"t", Json.str (r"inner"))]),
          (r"t", Json.str (r"outer"))]) (r"t") = some (r"inner")
    ∧ find_value_in_obj
        (Json.obj [(r"a", Json.obj [(r"t", Json.str (r"inner"))]),
          (r"t", Json.str (r"outer"))]) (r"t") ≠ some (r"outer") :=
  ⟨rfl, by decide⟩

/-- C1, amended: the deep search interleaves key checks and recursion; for
each key in iteration order it first checks that key, then descends into
its value before moving on, and returns the extraction of the first match
in this pre-order traversal, so a match inside an earlier sibling's subtree
wins over a later direct key. -/
theorem C1_amended_interleaved_search :
    (∀ (obj : Json) (field_token : String),
      find_value_in_obj obj field_token =
        ((matchesVal (normalize_name field_token) obj).head?).map extract_scalar_value)
    ∧ find_value_in_obj
        (Json.obj [(r"a", Json.obj [(r"t", Json.str (r"inner"))]),
          (r"t", Json.str (r"outer"))]) (r"t") = some (r"inner") :=
  ⟨fun obj tok => searchVal_matches (normalize_name tok) obj, rfl⟩

/-- C2, counterexample: on a record that is not an object, resolving a
plain token raises (attribute access on a non-dict) instead of returning
the empty string. -/
theorem C2_counterexample_nonobject_record_raises :
    resolve_variable (r"NAME") (Json.arr []) = Except.error () := rfl

/-- C2, amended: on an object record resolve_variable is total, and a
people entry that is absent or not a list makes every PEOPLE-shaped token
resolve to the empty string; only a non-object record can make resolution
raise. -/
theorem C2_amended_object_record_total :
    (∀ (var_str : String) (kvs : List (String × Json)),
      ∃ s, resolve_variable var_str (Json.obj kvs) = Except.ok s)
    ∧ (∀ (var_str : String) (kvs : List (String × Json)),
        isListOpt (pyGet kvs (r"people")) = false →
        ((pyStripChars var_str.data).map Char.toUpper).take 7 = peopleTag →
        resolve_variable var_str (Json.obj kvs) = Except.ok (r"")) :=
  ⟨resolve_variable_obj_ok, fun v kvs h1 h2 => resolve_no_people v kvs h1 h2⟩

/-- C2, witness for the amended claim at concrete inputs. -/
theorem C2_amended_object_record_total_witness :
    (∃ s, resolve_variable (r"NAME") (Json.obj []) = Except.ok s)
    ∧ isListOpt (pyGet [(r"people", Json.null)] (r"people")) = false
    ∧ ((pyStripChars (r"PEOPLE_OWNER_CITY").data).map Char.toUpper).take 7 = peopleTag
    ∧ resolve_variable (r"PEOPLE_OWNER_CITY") (Json.obj [(r"people", Json.null)]) =
        Except.ok (r"") :=
  ⟨C2_amended_object_record_total.1 (r"NAME") [], by decide, by decide,
    C2_amended_object_record_total.2 (r"PEOPLE_OWNER_CITY") [(r"people", Json.null)]
      (by decide) (by decide)⟩

/-- C3: the end-to-end example of the specification: the PEOPLE token is
resolved through the role and the nested address, and the non-string
leaves pass through. -/
theorem C3_end_to_end :
    transform_structure
        (Json.obj [(r"greeting", Json.str (r"PEOPLE_OWNER_CITY")), (r"code", Json.num 7),
          (r"flag", Json.null)])
        (Json.obj [(r"people", Json.arr [Json.obj [(r"Role", Json.str (r"Owner")),
          (r"Address", Json.obj [(r"City", Json.str (r"Troy"))])]])]) =
      Except.ok (Json.obj [(r"greeting", Json.str (r"Troy")), (r"code", Json.num 7),
        (r"flag", Json.null)]) := rfl

/-- C4: a token whose stripped uppercased form contains an underscore but
does not start with the PEOPLE tag resolves to the empty string on every
record, whatever keys the record has. -/
theorem C4_underscore_token_unresolved (var_str : String) (record : Json)
    (h1 : '_' ∈ (pyStripChars var_str.data).map Char.toUpper)
    (h2 : ((pyStripChars var_str.data).map Char.toUpper).take 7 ≠ peopleTag) :
    resolve_variable var_str record = Except.ok (r"") :=
  resolve_underscore_unresolved var_str record h1 h2

/-- C4, witness: the token contract_number resolves to the empty string
even though the record has the key ContractNumber, which matches it under
normalization. -/
theorem C4_underscore_token_unresolved_witness :
    ('_' ∈ (pyStripChars (r"contract_number").data).map Char.toUpper)
    ∧ ((pyStripChars (r"contract_number").data).map Char.toUpper).take 7 ≠ peopleTag
    ∧ normalize_name (r"contract_number") = normalize_name (r"ContractNumber")
    ∧ resolve_variable (r"contract_number")
        (Json.obj [(r"ContractNumber", Json.str (r"123"))]) = Except.ok (r"") :=
  ⟨by decide, by decide, rfl,
    C4_underscore_token_unresolved (r"contract_number")
      (Json.obj [(r"ContractNumber", Json.str (r"123"))]) (by decide) (by decide)⟩

/-- C5: extraction precedence: null and the empty list give the empty
string; a non-empty list gives its first string element or the empty string
when none exists; strings, integers and booleans give their Python string
form; extraction is a total function. -/
theorem C5_extract_scalar_precedence :
    (∀ xs : List Json, extract_scalar_value (Json.arr xs) = getStrD (xs.find? isStrJson))
    ∧ extract_scalar_value Json.null = ""
    ∧ extract_scalar_value (Json.arr []) = ""
    ∧ (∀ s : String, extract_scalar_value (Json.str s) = s)
    ∧ (∀ n : Int, extract_scalar_value (Json.num n) = toString n)
    ∧ extract_scalar_value (Json.bool true) = (r"True")
    ∧ extract_scalar_value (Json.bool false) = (r"False")
    ∧ extract_scalar_value (Json.num 42) = (r"42")
    ∧ extract_scalar_value (Json.arr [Json.str (r"a"), Json.str (r"b")]) = (r"a")
    ∧ extract_scalar_value (Json.arr [Json.num 1, Json.num 2]) = "" :=
  ⟨extract_arr_find?, rfl, rfl, fun _ => rfl, fun _ => rfl, rfl, rfl, rfl, rfl, rfl⟩

/-- C6: the role search is a first-match scan in list order with a
predicate that skips non-objects and entries whose Role is absent or not a
string; with two people sharing a role the earlier one wins, and with no
matching role nothing is found. -/
theorem C6_find_person_first_match :
    (∀ (people_list : List Json) (role_token : String),
      find_person_by_role people_list role_token =
        people_list.find? (roleMatches (normalize_name role_token)))
    ∧ find_person_by_role
        [Json.str (r"junk"),
          Json.obj [(r"Name", Json.str (r"NoRole"))],
          Json.obj [(r"Role", Json.num 5)],
          Json.obj [(r"Role", Json.str (r"Owner")), (r"Name", Json.str (r"Ann"))],
          Json.obj [(r"Role", Json.str (r" owner ")), (r"Name", Json.str (r"Bob"))]]
        (r"OWNER") =
      some (Json.obj [(r"Role", Json.str (r"Owner")), (r"Name", Json.str (r"Ann"))])
    ∧ find_person_by_role [Json.obj [(r"Role", Json.str (r"Owner"))]] (r"Beneficiary") =
        none :=
  ⟨fun people role => findPersonAux_eq_find? (normalize_name role) people, rfl, rfl⟩

/-- C7: a successful transform has exactly the shape of its template (same
keys in order, same list lengths, unchanged non-string leaves), and a
string leaf is replaced by the resolution of that string. -/
theorem C7_transform_preserves_shape :
    (∀ (template root_obj out : Json),
      transform_structure template root_obj = Except.ok out → shape out = shape template)
    ∧ (∀ (s : String) (root_obj : Json),
        transform_structure (Json.str s) root_obj = (resolve_variable s root_obj).map Json.str) := by
  constructor
  · intro template root_obj out h
    exact transform_shape root_obj template out h
  · intro s root_obj
    rcases hr : resolve_variable s root_obj with e | v
    · simp [transform_structure, hr, Except.map]
    · simp [transform_structure, hr, Except.map]

/-- C7, witness at a concrete template and record. -/
theorem C7_transform_preserves_shape_witness :
    transform_structure
        (Json.obj [(r"g", Json.str (r"PEOPLE_X_Y")), (r"n", Json.num 3)]) (Json.obj []) =
      Except.ok (Json.obj [(r"g", Json.str (r"")), (r"n", Json.num 3)])
    ∧ shape (Json.obj [(r"g", Json.str (r"")), (r"n", Json.num 3)]) =
        shape (Json.obj [(r"g", Json.str (r"PEOPLE_X_Y")), (r"n", Json.num 3)]) :=
  ⟨rfl,
    C7_transform_preserves_shape.1
      (Json.obj [(r"g", Json.str (r"PEOPLE_X_Y")), (r"n", Json.num 3)]) (Json.obj [])
      (Json.obj [(r"g", Json.str (r"")), (r"n", Json.num 3)]) rfl⟩

/-- C8: normalization is idempotent, and identifies case, whitespace and
underscore variants of a name. -/
theorem C8_normalize_idempotent :
    (∀ s : String, normalize_name (normalize_name s) = normalize_name s)
    ∧ normalize_name (r"First_Name") = normalize_name (r" firstname ") :=
  ⟨fun s => congrArg String.mk (normChars_idem s.data), rfl⟩

/-- C9: escaping slashes preserves the structure and every non-string
leaf, replaces each string leaf by its slash-doubled form, and the
character-level replacement leaves slash-free strings unchanged while
doubling every slash occurrence. -/
theorem C9_escape_slashes_spec :
    (∀ j : Json, shape (escape_slashes j) = shape j)
    ∧ (∀ s : String, escape_slashes (Json.str s) = Json.str (pyReplaceSlash s))
    ∧ (∀ l : List Char, '/' ∉ l → replSlash l = l)
    ∧ (∀ a b : List Char,
        replSlash (a ++ '/' :: b) = replSlash a ++ '/' :: '/' :: replSlash b) := by
  refine ⟨shape_escape, fun s => rfl, ?_, ?_⟩
  · intro l h
    induction l with
    | nil => rfl
    | cons c rest ih =>
        have hc : ¬(c = '/') := fun hcc => h (hcc ▸ List.mem_cons_self c rest)
        simp [replSlash, hc, ih (fun hm => h (List.mem_cons_of_mem c hm))]
  · intro a b
    induction a with
    | nil => simp [replSlash]
    | cons c resta ih =>
        by_cases hc : c = '/'
        · subst hc
          simp [replSlash, ih]
        · simp [replSlash, hc, ih]

/-- C9, witness for the slash-free clause at a concrete string. -/
theorem C9_escape_slashes_spec_witness :
    ('/' ∉ (r"abc").data) ∧ replSlash (r"abc").data = (r"abc").data :=
  ⟨by decide, C9_escape_slashes_spec.2.2.1 (r"abc").data (by decide)⟩

/-- C10: when the first key match in traversal order extracts to the empty
string, the deep search returns the empty string and never reaches any
later match. -/
theorem C10_first_match_empty_stops (obj : Json) (field_token : String)
    (v : Json) (rest : List Json)
    (h1 : matchesVal (normalize_name field_token) obj = v :: rest)
    (h2 : extract_scalar_value v = "") :
    find_value_in_obj obj field_token = some (r"") := by
  have he := searchVal_matches (normalize_name field_token) obj
  unfold find_value_in_obj
  rw [he, h1]
  simp [h2]

/-- C10, witness: the record has two keys normalizing to FIELD, the first
null and the second a non-empty string, and the search returns the empty
string from the first. -/
theorem C10_first_match_empty_stops_witness :
    matchesVal (normalize_name (r"field"))
        (Json.obj [(r"Field", Json.null), (r"FIELD", Json.str (r"x"))]) =
      Json.null :: [Json.str (r"x")]
    ∧ extract_scalar_value Json.null = ""
    ∧ find_value_in_obj (Json.obj [(r"Field", Json.null), (r"FIELD", Json.str (r"x"))])
        (r"field") = some (r"") :=
  ⟨rfl, rfl,
    C10_first_match_empty_stops
      (Json.obj [(r"Field", Json.null), (r"FIELD", Json.str (r"x"))]) (r"field")
      Json.null [Json.str (r"x")] rfl rfl⟩
